import Mathlib

/-!
Verification development for the pdf2excel converter (src/converter.py).

The Python source is shallowly embedded: pure cell/table normalization
functions are translated to Lean functions on `String`/`List`, and the
orchestrator `convert_pdf_to_excel_with_meta` is modelled as a function of
an environment `Env` of oracles describing the external engines
(camelot, pdfplumber, tabula, ocrmypdf, the page counter) — each oracle
returns `Except Unit _`, where `.error ()` models a raised exception.
-/

namespace Converter

/-! ### Character and string primitives (Python `str` operations) -/

/-- Python whitespace class (`\s`, `str.strip()`), restricted to ASCII. -/
def isWS (c : Char) : Bool :=
  c = ' ' || c = '\t' || c = '\n' || c = '\r' || c = '\x0b' || c = '\x0c'

/-- `x.replace("\n", " ").replace("\r", " ")` acts characterwise. -/
def nlToSpace (c : Char) : Char :=
  if c = '\n' || c = '\r' then ' ' else c

/-- Python `str.strip()` on a character list. -/
def stripData (cs : List Char) : List Char :=
  ((cs.dropWhile isWS).reverse.dropWhile isWS).reverse

/-- Python `str.strip()`. -/
def pyStrip (s : String) : String :=
  String.mk (stripData s.data)

/-- Worker for `re.sub(r"\s{2,}", " ", s)`: a maximal run of two or more
whitespace characters becomes a single space; a lone whitespace character
is kept as is.  The flag records that we are inside a run whose
replacement space has already been emitted. -/
def collapseAux : List Char → Bool → List Char
  | [], _ => []
  | c :: rest, inRun =>
    if isWS c then
      if inRun then collapseAux rest true
      else
        match rest with
        | [] => [c]
        | c2 :: _ =>
          if isWS c2 then ' ' :: collapseAux rest true
          else c :: collapseAux rest false
    else c :: collapseAux rest false

/-- `re.sub(r"\s{2,}", " ", s)`. -/
def collapseWS (cs : List Char) : List Char :=
  collapseAux cs false

/-- Lines 35–36 of converter.py:
`s = x.replace("\n", " ").replace("\r", " ").strip()` followed by
`s = re.sub(r"\s{2,}", " ", s)`. -/
def pyNormalize (x : String) : String :=
  String.mk (collapseWS (stripData (x.data.map nlToSpace)))

/-- Matcher for the optional fraction `(?:[\.,]\d+)?` at the end of the
numeric core: what remains after the integer digits must be empty or a
separator followed by one or more digits and nothing else. -/
def numTail : List Char → Bool
  | [] => true
  | c :: r2 =>
    (c = '.' || c = ',') && !(r2.takeWhile Char.isDigit).isEmpty &&
      (r2.dropWhile Char.isDigit).isEmpty

/-- Full match of the regex `-?\d+(?:[\.,]\d+)?` (the numeric core used by
both regexes of `_clean_cell`).  `\d+` is greedy and the following
character class excludes digits, so a span-based parse is exact. -/
def isNumCore (cs : List Char) : Bool :=
  let cs1 := if cs.head? = some '-' then cs.tail else cs
  !(cs1.takeWhile Char.isDigit).isEmpty && numTail (cs1.dropWhile Char.isDigit)

/-- Worker for the suffix regex, on the reversed character list: the last
character must be `p` or `P`, preceded by spaces, preceded by the numeric
core. -/
def pSuffixRev : List Char → Option (List Char)
  | [] => none
  | c :: rest =>
    if c = 'p' ∨ c = 'P' then
      let core := (rest.dropWhile (fun x => x = ' ')).reverse
      if isNumCore core then some core else none
    else none

/-- Full match of `(-?\d+(?:[\.,]\d+)?)[ ]*p` with `re.IGNORECASE`
(line 39), returning the captured numeric group.  `[ ]*` matches space
characters only, and neither spaces nor `p` can occur inside the numeric
core, so parsing from the right is exact. -/
def pSuffixSplit (s : String) : Option String :=
  (pSuffixRev s.data.reverse).map String.mk

/-- Python `s.replace(",", ".")` (single-character pattern). -/
def commaToDot (s : String) : String :=
  String.mk (s.data.map (fun c => if c = ',' then '.' else c))

/-- A pandas cell value: a Python string, a missing value (`None`/`pd.NA`/
`NaN`), or a non-string scalar carrying its `str()` representation. -/
inductive Cell where
  | str (s : String)
  | na
  | other (repr : String)
deriving DecidableEq

/-- Lines 30–47 of converter.py.  `None` and non-`str` values pass through
unchanged; strings are normalized, then matched against the pence-suffix
regex, then against the bare numeric regex. -/
def _clean_cell : Cell → Cell
  | .str x =>
    let s := pyNormalize x
    match pSuffixSplit s with
    | some core => .str (commaToDot core)
    | none => if isNumCore s.data then .str (commaToDot s) else .str s
  | .na => .na
  | .other r => .other r

/-! ### Table-level normalization (lines 49–70 of converter.py)

A raw table (pandas `DataFrame`) is a rectangular grid of cells; we model
it as a list of rows. -/

/-- A raw extracted table. -/
abbrev Table := List (List Cell)

/-- `cleaned.replace(r"^\s*$", pd.NA, regex=True)` (line 65): a string cell
consisting solely of whitespace (including the empty string) becomes
missing; non-string cells are untouched. -/
def blankToNA : Cell → Cell
  | .str s => if s.data.all isWS then .na else .str s
  | c => c

/-- `dropna(how="all", axis=0)` (line 66): drop rows all of whose cells are
missing. -/
def dropNARows (g : Table) : Table :=
  g.filter (fun r => !r.all (fun c => c = Cell.na))

/-- Column `j` consists only of missing values. -/
def colAllNA (g : Table) (j : Nat) : Bool :=
  g.all (fun r => (r.get? j).getD Cell.na = Cell.na)

/-- `dropna(how="all", axis=1)` (line 67): drop columns all of whose cells
are missing. -/
def dropNACols (g : Table) : Table :=
  g.map (fun r => ((r.enum.filter (fun p => !colAllNA g p.1)).map Prod.snd))

/-- Lines 63–67 of `_write_excel`: per-cell cleaning, blank-to-missing,
then pruning of all-missing rows and columns. -/
def cleanTable (g : Table) : Table :=
  dropNACols (dropNARows (g.map (fun r => r.map (fun c => blankToNA (_clean_cell c)))))

/-- `df.iloc[0].astype(str)`: the string representation pandas produces
for each cell (`pd.NA` prints as `<NA>`). -/
def cellToStr : Cell → String
  | .str s => s
  | .na => "<NA>"
  | .other r => r

/-- Lines 49–57 of converter.py (`_maybe_headerize`).  The result is the
promoted header row (if any) together with the remaining data rows;
`none` means the table keeps pandas' positional column labels.
`df.empty` holds when the frame has zero rows or zero columns. -/
def _maybe_headerize (g : Table) : Option (List String) × Table :=
  match g with
  | [] => (none, [])
  | r0 :: rest =>
    if r0.isEmpty then (none, r0 :: rest)
    else
      let head := r0.map (fun c => pyStrip (cellToStr c))
      if head.Nodup then
        (some (head.map (fun s => (pyStrip s).take 60)), rest)
      else (none, r0 :: rest)

/-- One worksheet of the output workbook. -/
structure Sheet where
  sheet_name : String
  header : Option (List String)
  rows : Table
deriving DecidableEq

/-- Lines 59–70 of converter.py (`_write_excel`): one sheet per table,
named `Table_i` by 1-based position, after cleaning, pruning and header
promotion.  The xlsx byte serialization itself (openpyxl) is opaque; the
sheet list is its content. -/
def _write_excel (dfs : List Table) : List Sheet :=
  dfs.enum.map (fun p =>
    let cleaned := cleanTable p.2
    let hz := _maybe_headerize cleaned
    { sheet_name := "Table_" ++ toString (p.1 + 1)
      header := hz.1
      rows := hz.2 })

/-! ### Camelot configurations (lines 73–80 of converter.py) -/

inductive Flavor where
  | lattice
  | stream
deriving DecidableEq

/-- One keyword-argument dictionary passed to `camelot.read_pdf`. -/
structure CamelotCfg where
  flavor : Flavor
  line_scale : Option Nat := none
  row_tol : Option Nat := none
  column_tol : Option Nat := none
  strip_text : String := "\n"
deriving DecidableEq

/-- Lines 75–80 of converter.py, in order. -/
def _camelot_configs : List CamelotCfg :=
  [ { flavor := .lattice, line_scale := some 40 },
    { flavor := .lattice, line_scale := some 20 },
    { flavor := .stream, row_tol := some 10, column_tol := some 10 },
    { flavor := .stream, row_tol := some 5, column_tol := some 15 } ]

/-! ### The extraction environment

The external engines are oracles.  A call that raises a Python exception
is `.error ()`; a normal return is `.ok _`.  The source document is either
the uploaded PDF or the OCR'd copy produced by `ocrmypdf`. -/

inductive Source where
  | original
  | ocrd
deriving DecidableEq

/-- Oracles for one conversion request.  `hasText` is the (exception
absorbing) result of `_pdf_has_selectable_text` on the uploaded PDF;
`ocr` is the outcome of the `ocrmypdf` subprocess (`.ok` = exit 0,
`.error` = nonzero exit or timeout, line 27); `camelot cfg src` is
`camelot.read_pdf(src, pages="all", **cfg)`; `pdfplumberTables src` is
the list of per-page tables collected by `_try_pdfplumber` (line 97–101,
an exception while reading propagates); `tabula lattice src` is
`tabula.read_pdf(...)`; `pages src` is `len(pdfplumber.open(src).pages)`. -/
structure Env where
  hasText : Bool
  ocr : Except Unit Unit
  camelot : CamelotCfg → Source → Except Unit (List Table)
  pdfplumberTables : Source → Except Unit (List Table)
  tabulaAvailable : Bool
  tabula : Bool → Source → Except Unit (List Table)
  pages : Source → Except Unit Nat

/-- Identity of one strategy invocation in the fallback chain:
camelot configuration `i` (0-based), pdfplumber, or a tabula mode. -/
inductive StratId where
  | cam (i : Nat)
  | plumber
  | tabLattice
  | tabStream
deriving DecidableEq

/-- Position of a strategy in the canonical chain ordering. -/
def StratId.pos : StratId → Nat
  | .cam i => i
  | .plumber => 4
  | .tabLattice => 5
  | .tabStream => 6

/-- The `extractor` string each strategy reports on success (the camelot
string abstracts the Python `f"camelot:{cfg}"` dict repr by index). -/
def stratName : StratId → String
  | .cam i => "camelot:cfg" ++ toString i
  | .plumber => "pdfplumber"
  | .tabLattice => "tabula:lattice"
  | .tabStream => "tabula:stream"

/-- `df.empty` for a tabula frame: zero rows or zero columns. -/
def dfEmpty : Table → Bool
  | [] => true
  | r :: _ => r.isEmpty

/-- The `for cfg in _camelot_configs()` loop of `_try_camelot`
(lines 84–92), over index/configuration pairs.  A raised exception is
caught and the loop continues; a nonempty table list is returned at once.
Alongside the result we record which configurations were invoked. -/
def camelotLoop (env : Env) (src : Source) :
    List (Nat × CamelotCfg) → (List Table × String) × List StratId
  | [] => (([], "camelot:none"), [])
  | (i, cfg) :: rest =>
    match env.camelot cfg src with
    | .error _ =>
      let r := camelotLoop env src rest
      (r.1, .cam i :: r.2)
    | .ok tables =>
      if tables.length > 0 then ((tables, "camelot:cfg" ++ toString i), [.cam i])
      else
        let r := camelotLoop env src rest
        (r.1, .cam i :: r.2)

/-- Lines 82–93 of converter.py (`_try_camelot`); the `tried` diagnostic
list in the failure dict is not modelled. -/
def _try_camelot (env : Env) (src : Source) : (List Table × String) × List StratId :=
  camelotLoop env src _camelot_configs.enum

/-- Lines 95–103 of converter.py (`_try_pdfplumber`).  There is no
`try`/`except` here: an exception from pdfplumber propagates to the
caller. -/
def _try_pdfplumber (env : Env) (src : Source) : Except Unit (List Table × String) :=
  (env.pdfplumberTables src).map (fun frames => (frames, "pdfplumber"))

/-- Lines 105–124 of converter.py (`_try_tabula`).  If the import fails
the strategy is skipped; the lattice pass runs first and a nonempty
(filtered) result returns at once; an exception anywhere in the loop is
caught and the tables collected so far are returned. -/
def _try_tabula (env : Env) (src : Source) : (List Table × String) × List StratId :=
  if env.tabulaAvailable then
    match env.tabula true src with
    | .error _ => (([], "tabula:none"), [.tabLattice])
    | .ok l1 =>
      let dfs1 := l1.filter (fun t => !dfEmpty t)
      if dfs1.isEmpty then
        match env.tabula false src with
        | .error _ => ((dfs1, "tabula:none"), [.tabLattice, .tabStream])
        | .ok l2 =>
          let dfs2 := dfs1 ++ l2.filter (fun t => !dfEmpty t)
          if dfs2.isEmpty then ((dfs2, "tabula:none"), [.tabLattice, .tabStream])
          else ((dfs2, "tabula:stream"), [.tabLattice, .tabStream])
      else ((dfs1, "tabula:lattice"), [.tabLattice])
  else (([], "tabula:not-available"), [])

/-- Lines 145–153 of converter.py: camelot, then (if no tables)
pdfplumber, then (if still no tables) tabula.  The pdfplumber call is the
only one whose exception escapes.  The second component is the list of
strategy invocations, in order. -/
def runChain (env : Env) (src : Source) :
    Except Unit (List Table × String) × List StratId :=
  let cam := _try_camelot env src
  if cam.1.1.isEmpty then
    match _try_pdfplumber env src with
    | .error e => (.error e, cam.2 ++ [.plumber])
    | .ok pr =>
      if pr.1.isEmpty then
        let tab := _try_tabula env src
        (.ok tab.1, cam.2 ++ [.plumber] ++ tab.2)
      else (.ok pr, cam.2 ++ [.plumber])
  else (.ok cam.1, cam.2)

/-- What a single strategy of the chain would return on this document:
`.error ()` models a raised exception, otherwise the list of tables the
orchestrator would receive from it (for tabula modes, after the
nonempty-frame filter). -/
def stratOutcome (env : Env) (src : Source) : StratId → Except Unit (List Table)
  | .cam i =>
    match _camelot_configs.get? i with
    | some cfg => env.camelot cfg src
    | none => .ok []
  | .plumber => env.pdfplumberTables src
  | .tabLattice => (env.tabula true src).map (fun l => l.filter (fun t => !dfEmpty t))
  | .tabStream => (env.tabula false src).map (fun l => l.filter (fun t => !dfEmpty t))

/-! ### The orchestrator (lines 127–173 of converter.py) -/

/-- Failure modes of `convert_pdf_to_excel_with_meta`: the distinguished
`ValueError("No tables found after OCR and all extractors.")`, or any
other uncaught exception. -/
inductive ConvError where
  | noTables
  | fatal
deriving DecidableEq

/-- The metadata dictionary returned on success. -/
structure ConvMeta where
  extractor : String
  tables_found : Nat
  ocr_used : Bool
  pages : Option Nat
deriving DecidableEq

/-- Lines 163–167: page count of the final source document, `None` if
pdfplumber raises. -/
def metaPages (env : Env) (src : Source) : Option Nat :=
  match env.pages src with
  | .ok n => some n
  | .error _ => none

/-- Lines 134–143: if the PDF has selectable text keep it; otherwise run
OCR, using the OCR'd copy on success and falling back to the original on
failure.  The flag is `used_ocr`, set only after a successful OCR call. -/
def pickSource (env : Env) : Source × Bool :=
  if env.hasText then (.original, false)
  else
    match env.ocr with
    | .ok _ => (.ocrd, true)
    | .error _ => (.original, false)

/-- Lines 145–168: the extraction chain, the no-tables check, the xlsx
serialization and the metadata, for a fixed source document and
`used_ocr` flag. -/
def convertFrom (env : Env) (src : Source) (usedOcr : Bool) :
    Except ConvError (List Sheet × ConvMeta) :=
  match (runChain env src).1 with
  | .error _ => .error .fatal
  | .ok dm =>
    if dm.1.isEmpty then .error .noTables
    else
      .ok (_write_excel dm.1,
        { extractor := dm.2
          tables_found := dm.1.length
          ocr_used := usedOcr
          pages := metaPages env src })

/-- Lines 127–168 of converter.py (`convert_pdf_to_excel_with_meta`). -/
def convert_pdf_to_excel_with_meta (env : Env) : Except ConvError (List Sheet × ConvMeta) :=
  convertFrom env (pickSource env).1 (pickSource env).2

/-- Lines 171–173 of converter.py (`convert_pdf_to_excel`): the
backward-compatibility wrapper. -/
def convert_pdf_to_excel (env : Env) : Except ConvError (List Sheet) :=
  match convert_pdf_to_excel_with_meta env with
  | .ok xm => .ok xm.1
  | .error e => .error e

/-! ### Concrete environments used in witnesses and counterexamples -/

/-- A one-cell table. -/
def tableW : Table := [[Cell.str "x"]]

/-- All strategies return zero tables. -/
def envAllEmpty : Env :=
  { hasText := true, ocr := .ok (), camelot := fun _ _ => .ok [],
    pdfplumberTables := fun _ => .ok [], tabulaAvailable := true,
    tabula := fun _ _ => .ok [], pages := fun _ => .ok 1 }

/-- The first camelot configuration is empty and the second returns one
table. -/
def envC2 : Env :=
  { hasText := true, ocr := .ok (),
    camelot := fun cfg _ => if cfg.line_scale = some 20 then .ok [tableW] else .ok [],
    pdfplumberTables := fun _ => .ok [], tabulaAvailable := true,
    tabula := fun _ _ => .ok [], pages := fun _ => .ok 1 }

/-- All camelot configurations are empty, pdfplumber raises, and tabula
would return one table. -/
def envC3 : Env :=
  { hasText := true, ocr := .ok (), camelot := fun _ _ => .ok [],
    pdfplumberTables := fun _ => .error (), tabulaAvailable := true,
    tabula := fun lattice _ => if lattice then .ok [tableW] else .ok [],
    pages := fun _ => .ok 1 }

/-- No selectable text and a failing OCR engine. -/
def envC7 : Env :=
  { hasText := false, ocr := .error (), camelot := fun _ _ => .ok [tableW],
    pdfplumberTables := fun _ => .ok [], tabulaAvailable := false,
    tabula := fun _ _ => .ok [], pages := fun _ => .ok 1 }

/-- No selectable text, failing OCR, and a successful extraction
afterwards. -/
def envC8 : Env :=
  { hasText := false, ocr := .error (), camelot := fun _ _ => .ok [tableW],
    pdfplumberTables := fun _ => .ok [], tabulaAvailable := false,
    tabula := fun _ _ => .ok [], pages := fun _ => .ok 1 }

/-- No selectable text, successful OCR, successful extraction. -/
def envC8w : Env :=
  { hasText := false, ocr := .ok (), camelot := fun _ _ => .ok [tableW],
    pdfplumberTables := fun _ => .ok [], tabulaAvailable := false,
    tabula := fun _ _ => .ok [], pages := fun _ => .ok 1 }

/-- The output `convert_pdf_to_excel_with_meta` produces on `envC8w`. -/
def outC8w : List Sheet × ConvMeta :=
  ([{ sheet_name := "Table_1", header := some ["x"], rows := [] }],
    { extractor := "camelot:cfg0", tables_found := 1, ocr_used := true,
      pages := some 1 })

/-! ### Specification-side patterns

These follow the wording of the spec and of the claims, independently of
the parser above, so that the claims about `_clean_cell` can be stated in
the spec's own terms. -/

/-- The pattern `-?\d+([.,]\d+)?` as a structural property: an optional
minus sign, one or more digits, optionally followed by a decimal
separator (period or comma) and one or more digits. -/
def SpecNumCore (s : String) : Prop :=
  ∃ sign ds frac : String,
    (sign = "" ∨ sign = "-") ∧
    ds ≠ "" ∧ (∀ c ∈ ds.data, c.isDigit = true) ∧
    (frac = "" ∨ ∃ sep fs : String,
      (sep = "." ∨ sep = ",") ∧ fs ≠ "" ∧
      (∀ c ∈ fs.data, c.isDigit = true) ∧ frac = sep ++ fs) ∧
    s = sign ++ ds ++ frac

/-- The claim's suffix pattern `^-?\d+([.,]\d+)?\s*p$`, case-insensitive,
with `core` the numeric capture group: the value is the numeric core,
arbitrary whitespace, and a final `p` or `P`. -/
def ClaimSuffixMatch (s core : String) : Prop :=
  SpecNumCore core ∧
    ∃ ws p : String,
      (∀ c ∈ ws.data, isWS c = true) ∧ (p = "p" ∨ p = "P") ∧ s = core ++ ws ++ p

/-- The pattern the source actually full-matches,
`(-?\d+(?:[\.,]\d+)?)[ ]*p` case-insensitive: like `ClaimSuffixMatch`,
but only space characters may separate the number from the suffix. -/
def CodeSuffixMatch (s core : String) : Prop :=
  SpecNumCore core ∧
    ∃ sp p : String,
      (∀ c ∈ sp.data, c = ' ') ∧ (p = "p" ∨ p = "P") ∧ s = core ++ sp ++ p

/-! ### Supporting lemmas -/

theorem takeWhile_append_all {α} {p : α → Bool} (l1 l2 : List α)
    (h : ∀ a ∈ l1, p a = true) :
    (l1 ++ l2).takeWhile p = l1 ++ l2.takeWhile p := by
  induction l1 with
  | nil => simp
  | cons a t ih =>
    have ha : p a = true := h a (by simp)
    simp only [List.cons_append, List.takeWhile_cons_of_pos ha, List.cons.injEq, true_and]
    exact ih (fun x hx => h x (by simp [hx]))

theorem dropWhile_append_all {α} {p : α → Bool} (l1 l2 : List α)
    (h : ∀ a ∈ l1, p a = true) :
    (l1 ++ l2).dropWhile p = l2.dropWhile p := by
  induction l1 with
  | nil => simp
  | cons a t ih =>
    have ha : p a = true := h a (by simp)
    simp only [List.cons_append, List.dropWhile_cons_of_pos ha]
    exact ih (fun x hx => h x (by simp [hx]))

theorem takeWhile_all_eq {α} {p : α → Bool} (l : List α)
    (h : ∀ a ∈ l, p a = true) : l.takeWhile p = l := by
  have := takeWhile_append_all (p := p) l [] h
  simpa using this

theorem dropWhile_all_eq {α} {p : α → Bool} (l : List α)
    (h : ∀ a ∈ l, p a = true) : l.dropWhile p = [] := by
  have := dropWhile_append_all (p := p) l [] h
  simpa using this

theorem dropWhile_head_false {α} {p : α → Bool} :
    ∀ (l : List α) (a : α) (t : List α), l.dropWhile p = a :: t → p a = false
  | [], a, t => by simp
  | c :: r, a, t => by
    by_cases h : p c
    · rw [List.dropWhile_cons_of_pos h]
      exact dropWhile_head_false r a t
    · rw [List.dropWhile_cons_of_neg h]
      intro he
      cases he
      simpa using h

theorem eq_empty_of_data_nil {s : String} (h : s.data = []) : s = "" := by
  cases s
  simp only at h
  subst h
  rfl

theorem data_ne_nil_of_ne_empty {s : String} (h : s ≠ "") : s.data ≠ [] :=
  fun hd => h (eq_empty_of_data_nil hd)

theorem digit_not_ws {c : Char} (h : c.isDigit = true) : isWS c = false := by
  rcases Bool.eq_false_or_eq_true (isWS c) with ht | hf
  · exfalso
    simp only [isWS, Bool.or_eq_true, decide_eq_true_eq] at ht
    rcases ht with ((((h1 | h1) | h1) | h1) | h1) | h1 <;> subst h1 <;>
      exact absurd h (by decide)
  · exact hf

theorem digit_ne_of_not_digit {c x : Char} (h : c.isDigit = true)
    (hx : x.isDigit = false) : c ≠ x := by
  intro he
  subst he
  rw [h] at hx
  cases hx

/-- A nonempty all-digit string ends in a digit. -/
theorem ends_digit {l : List Char} (hne : l ≠ [])
    (h : ∀ c ∈ l, c.isDigit = true) :
    ∃ pre d, l = pre ++ [d] ∧ d.isDigit = true := by
  rcases List.eq_nil_or_concat' l with rfl | ⟨pre, d, rfl⟩
  · exact absurd rfl hne
  · exact ⟨pre, d, rfl, h d (by simp)⟩

/-- A `SpecNumCore` string is nonempty and ends in a digit. -/
theorem spec_num_core_ends_digit {s : String} (h : SpecNumCore s) :
    ∃ pre d, s.data = pre ++ [d] ∧ d.isDigit = true := by
  obtain ⟨sign, ds, frac, _, hds, hdig, hfrac, rfl⟩ := h
  rcases hfrac with rfl | ⟨sep, fs, _, hfs, hfsdig, rfl⟩
  · obtain ⟨pre, d, hd, hdd⟩ := ends_digit (data_ne_nil_of_ne_empty hds) hdig
    exact ⟨sign.data ++ pre, d, by simp [String.data_append, hd], hdd⟩
  · obtain ⟨pre, d, hd, hdd⟩ := ends_digit (data_ne_nil_of_ne_empty hfs) hfsdig
    exact ⟨sign.data ++ ds.data ++ sep.data ++ pre, d,
      by simp [String.data_append, hd], hdd⟩

/-- All characters of a `SpecNumCore` string are non-whitespace (they are
digits, a minus sign, or a decimal separator). -/
theorem spec_num_core_no_ws {s : String} (h : SpecNumCore s) :
    ∀ c ∈ s.data, isWS c = false := by
  obtain ⟨sign, ds, frac, hsign, _, hdig, hfrac, rfl⟩ := h
  intro c hc
  simp only [String.data_append, List.mem_append] at hc
  rcases hc with (hc | hc) | hc
  · rcases hsign with rfl | rfl
    · simp at hc
    · have : c = '-' := by simpa using hc
      subst this
      decide
  · exact digit_not_ws (hdig c hc)
  · rcases hfrac with rfl | ⟨sep, fs, hsep, _, hfsdig, rfl⟩
    · simp at hc
    · simp only [String.data_append, List.mem_append] at hc
      rcases hc with hc | hc
      · rcases hsep with rfl | rfl
        · have : c = '.' := by simpa using hc
          subst this
          decide
        · have : c = ',' := by simpa using hc
          subst this
          decide
      · exact digit_not_ws (hfsdig c hc)

/-- The integer-plus-fraction body of the numeric regex accepts
`ds ++ frac` when `ds` is one or more digits and `frac` is an optional
separator-plus-digits group. -/
theorem numBody_of_parts (ds frac : String)
    (hds : ds.data ≠ []) (hdig : ∀ c ∈ ds.data, c.isDigit = true)
    (hfrac : frac = "" ∨ ∃ sep fs : String,
      (sep = "." ∨ sep = ",") ∧ fs ≠ "" ∧
      (∀ c ∈ fs.data, c.isDigit = true) ∧ frac = sep ++ fs) :
    (!((ds.data ++ frac.data).takeWhile Char.isDigit).isEmpty &&
      numTail ((ds.data ++ frac.data).dropWhile Char.isDigit)) = true := by
  rcases hfrac with rfl | ⟨sep, fs, hsep, hfs, hfsdig, rfl⟩
  · have ht : (ds.data ++ ("" : String).data).takeWhile Char.isDigit = ds.data := by
      simpa using takeWhile_all_eq ds.data hdig
    have hd : (ds.data ++ ("" : String).data).dropWhile Char.isDigit = [] := by
      simpa using dropWhile_all_eq ds.data hdig
    rw [ht, hd]
    simp [numTail, hds]
  · have hsepc : ∃ c, sep.data = [c] ∧ (c = '.' ∨ c = ',') ∧ c.isDigit = false := by
      rcases hsep with rfl | rfl
      · exact ⟨'.', rfl, Or.inl rfl, by decide⟩
      · exact ⟨',', rfl, Or.inr rfl, by decide⟩
    obtain ⟨c, hsd, hc, hcd⟩ := hsepc
    have hfd : (sep ++ fs).data = c :: fs.data := by
      simp [String.data_append, hsd]
    rw [hfd]
    have ht : (ds.data ++ (c :: fs.data)).takeWhile Char.isDigit = ds.data := by
      rw [takeWhile_append_all ds.data _ hdig,
        List.takeWhile_cons_of_neg (by simp [hcd]), List.append_nil]
    have hd : (ds.data ++ (c :: fs.data)).dropWhile Char.isDigit = c :: fs.data := by
      rw [dropWhile_append_all ds.data _ hdig,
        List.dropWhile_cons_of_neg (by simp [hcd])]
    rw [ht, hd]
    have hfs1 : fs.data.takeWhile Char.isDigit = fs.data := takeWhile_all_eq _ hfsdig
    have hfs2 : fs.data.dropWhile Char.isDigit = [] := dropWhile_all_eq _ hfsdig
    have hne1 : ds.data.isEmpty = false := by simp [hds]
    have hne2 : fs.data.isEmpty = false := by simp [data_ne_nil_of_ne_empty hfs]
    have hcc : (decide (c = '.') || decide (c = ',')) = true := by
      rcases hc with rfl | rfl <;> simp
    simp [numTail, hfs1, hfs2, hne1, hne2, hcc]

/-- Completeness of the numeric parser against the spec-side pattern. -/
theorem isNumCore_of_spec {s : String} (h : SpecNumCore s) :
    isNumCore s.data = true := by
  obtain ⟨sign, ds, frac, hsign, hds, hdig, hfrac, rfl⟩ := h
  have hbody := numBody_of_parts ds frac (data_ne_nil_of_ne_empty hds) hdig hfrac
  rcases hsign with rfl | rfl
  · have hdata : (("" : String) ++ ds ++ frac).data = ds.data ++ frac.data := by
      simp [String.data_append]
    rw [isNumCore, hdata]
    obtain ⟨d0, dt, hdt⟩ : ∃ d0 dt, ds.data = d0 :: dt := by
      rcases hd : ds.data with _ | ⟨d0, dt⟩
      · exact absurd hd (data_ne_nil_of_ne_empty hds)
      · exact ⟨d0, dt, rfl⟩
    have hhead : (ds.data ++ frac.data).head? ≠ some '-' := by
      rw [hdt]
      simp only [List.cons_append, List.head?_cons]
      intro hEq
      exact digit_ne_of_not_digit (x := '-') (hdig d0 (by rw [hdt]; simp)) (by decide)
        (Option.some.inj hEq)
    rw [if_neg hhead]
    exact hbody
  · have hdata : (("-" : String) ++ ds ++ frac).data = '-' :: (ds.data ++ frac.data) := by
      simp [String.data_append]
    rw [isNumCore, hdata]
    rw [if_pos (by simp)]
    simpa using hbody

/-- From a successful run of the integer-plus-fraction body of the
numeric parser, recover the digit and fraction groups. -/
theorem spec_parts_of_body {t : List Char}
    (hds : t.takeWhile Char.isDigit ≠ [])
    (htail : numTail (t.dropWhile Char.isDigit) = true) :
    ∃ ds frac : String,
      ds ≠ "" ∧ (∀ c ∈ ds.data, c.isDigit = true) ∧
      (frac = "" ∨ ∃ sep fs : String,
        (sep = "." ∨ sep = ",") ∧ fs ≠ "" ∧
        (∀ c ∈ fs.data, c.isDigit = true) ∧ frac = sep ++ fs) ∧
      t = ds.data ++ frac.data := by
  rcases he : t.dropWhile Char.isDigit with _ | ⟨c, r2⟩
  · refine ⟨String.mk (t.takeWhile Char.isDigit), "",
      fun h0 => hds (congrArg String.data h0),
      fun c hc => List.mem_takeWhile_imp hc, Or.inl rfl, ?_⟩
    conv_lhs => rw [← List.takeWhile_append_dropWhile (p := Char.isDigit) (l := t)]
    rw [he]
  · rw [he] at htail
    simp only [numTail, Bool.and_eq_true, Bool.or_eq_true, decide_eq_true_eq,
      Bool.not_eq_true', List.isEmpty_eq_false, List.isEmpty_eq_true] at htail
    obtain ⟨⟨hcsep, hr2ne⟩, hr2d⟩ := htail
    have hr2 : r2 = r2.takeWhile Char.isDigit := by
      conv_lhs => rw [← List.takeWhile_append_dropWhile (p := Char.isDigit) (l := r2)]
      rw [hr2d, List.append_nil]
    refine ⟨String.mk (t.takeWhile Char.isDigit), String.mk [c] ++ String.mk r2,
      fun h0 => hds (congrArg String.data h0),
      fun x hx => List.mem_takeWhile_imp hx,
      Or.inr ⟨String.mk [c], String.mk r2, ?_,
        fun h0 => hr2ne (by rw [← hr2]; exact congrArg String.data h0),
        fun x hx => by rw [hr2] at hx; exact List.mem_takeWhile_imp hx, rfl⟩, ?_⟩
    · rcases hcsep with rfl | rfl
      · exact Or.inl rfl
      · exact Or.inr rfl
    · conv_lhs => rw [← List.takeWhile_append_dropWhile (p := Char.isDigit) (l := t)]
      rw [he]
      rfl

/-- Soundness of the numeric parser against the spec-side pattern. -/
theorem spec_of_isNumCore {cs : List Char} (h : isNumCore cs = true) :
    SpecNumCore (String.mk cs) := by
  rw [isNumCore] at h
  by_cases hh : cs.head? = some '-'
  · rw [if_pos hh] at h
    obtain ⟨t, rfl⟩ : ∃ t, cs = '-' :: t := by
      rcases cs with _ | ⟨c, t⟩
      · simp at hh
      · simp only [List.head?_cons, Option.some.injEq] at hh
        exact ⟨t, by rw [hh]⟩
    simp only [List.tail_cons, Bool.and_eq_true, Bool.not_eq_true',
      List.isEmpty_eq_false] at h
    obtain ⟨ds, frac, hds, hdig, hfrac, ht⟩ := spec_parts_of_body h.1 h.2
    refine ⟨"-", ds, frac, Or.inr rfl, hds, hdig, hfrac, ?_⟩
    apply String.ext
    simp only [String.data_append]
    simpa using ht
  · rw [if_neg hh] at h
    simp only [Bool.and_eq_true, Bool.not_eq_true', List.isEmpty_eq_false] at h
    obtain ⟨ds, frac, hds, hdig, hfrac, ht⟩ := spec_parts_of_body h.1 h.2
    refine ⟨"", ds, frac, Or.inl rfl, hds, hdig, hfrac, ?_⟩
    apply String.ext
    simp only [String.data_append]
    simpa using ht

/-- Completeness of the suffix parser: a value that decomposes according
to the code's pattern is accepted, with the numeric part as the capture. -/
theorem pSuffixSplit_of_code {s core : String} (h : CodeSuffixMatch s core) :
    pSuffixSplit s = some core := by
  obtain ⟨hspec, sp, p, hsp, hp, rfl⟩ := h
  obtain ⟨pre, d, hcore, hd⟩ := spec_num_core_ends_digit hspec
  obtain ⟨pc, hpdata, hpc⟩ : ∃ pc, p.data = [pc] ∧ (pc = 'p' ∨ pc = 'P') := by
    rcases hp with rfl | rfl
    · exact ⟨'p', rfl, Or.inl rfl⟩
    · exact ⟨'P', rfl, Or.inr rfl⟩
  have hrev : (core ++ sp ++ p).data.reverse
      = pc :: (sp.data.reverse ++ core.data.reverse) := by
    simp [String.data_append, hpdata]
  rw [pSuffixSplit, hrev]
  have hdrop : (sp.data.reverse ++ core.data.reverse).dropWhile (fun x => x = ' ')
      = core.data.reverse := by
    rw [dropWhile_append_all _ _ (fun a ha => by
      simp only [List.mem_reverse] at ha
      simp [hsp a ha])]
    rw [hcore]
    simp only [List.reverse_append, List.reverse_cons, List.reverse_nil,
      List.nil_append, List.singleton_append]
    exact List.dropWhile_cons_of_neg (by
      simp only [decide_eq_true_eq]
      exact digit_ne_of_not_digit (x := ' ') hd (by decide))
  simp only [pSuffixRev, hdrop, List.reverse_reverse]
  rw [if_pos hpc, if_pos (isNumCore_of_spec hspec)]
  rfl

/-- Soundness of the suffix parser: a successful parse yields the code's
pattern decomposition. -/
theorem code_of_pSuffixSplit {s core : String} (h : pSuffixSplit s = some core) :
    CodeSuffixMatch s core := by
  rcases hrev : s.data.reverse with _ | ⟨c, rest⟩
  · rw [pSuffixSplit, hrev] at h
    simp [pSuffixRev] at h
  · rw [pSuffixSplit, hrev] at h
    simp only [pSuffixRev] at h
    by_cases hc : c = 'p' ∨ c = 'P'
    · rw [if_pos hc] at h
      by_cases hn : isNumCore ((rest.dropWhile (fun x => x = ' ')).reverse) = true
      · rw [if_pos hn] at h
        simp only [Option.map_some', Option.some.injEq] at h
        have hs : s.data = (rest.dropWhile (fun x => x = ' ')).reverse
            ++ (rest.takeWhile (fun x => x = ' ')).reverse ++ [c] := by
          have h1 : s.data = (c :: rest).reverse := by
            rw [← hrev, List.reverse_reverse]
          rw [h1]
          simp only [List.reverse_cons]
          have h2 : rest
              = rest.takeWhile (fun x => x = ' ') ++ rest.dropWhile (fun x => x = ' ') :=
            (List.takeWhile_append_dropWhile _ _).symm
          conv_lhs => rw [h2]
          rw [List.reverse_append, List.append_assoc]
        refine ⟨by rw [← h]; exact spec_of_isNumCore hn,
          String.mk ((rest.takeWhile (fun x => x = ' ')).reverse), String.mk [c],
          ?_, ?_, ?_⟩
        · intro x hx
          simp only [List.mem_reverse] at hx
          have := List.mem_takeWhile_imp hx
          simpa using this
        · rcases hc with rfl | rfl
          · exact Or.inl rfl
          · exact Or.inr rfl
        · apply String.ext
          rw [← h]
          simpa [String.data_append] using hs
      · rw [if_neg hn] at h
        simp at h
    · rw [if_neg hc] at h
      simp at h

/-- The code's suffix pattern is a special case of the claim's. -/
theorem claim_of_code {s core : String} (h : CodeSuffixMatch s core) :
    ClaimSuffixMatch s core := by
  obtain ⟨hspec, sp, p, hsp, hp, he⟩ := h
  refine ⟨hspec, sp, p, ?_, hp, he⟩
  intro c hc
  rw [hsp c hc]
  decide

/-! ### Normalization lemmas -/

theorem collapseAux_no_ws :
    ∀ (l : List Char), (∀ c ∈ l, isWS c = false) → ∀ b, collapseAux l b = l
  | [], _, _ => rfl
  | c :: rest, h, b => by
    have hc : isWS c = false := h c (by simp)
    simp only [collapseAux, hc, Bool.false_eq_true, if_false]
    exact congrArg (c :: ·) (collapseAux_no_ws rest (fun x hx => h x (by simp [hx])) false)

theorem nlToSpace_not_ws {c : Char} (h : isWS c = false) : nlToSpace c = c := by
  rw [nlToSpace, if_neg]
  intro hc
  rcases Bool.or_eq_true _ _ |>.mp hc with h1 | h1 <;>
    · have := decide_eq_true_eq.mp h1
      subst this
      cases h

theorem nlToSpace_ws {c : Char} (h : isWS c = true) : isWS (nlToSpace c) = true := by
  rw [nlToSpace]
  by_cases hc : (c = '\n' || c = '\r') = true
  · rw [if_pos hc]
    decide
  · rw [if_neg hc]
    exact h

/-- Stripping a list of the form whitespace-core-whitespace, where the
core is empty or has non-whitespace endpoints, yields the core. -/
theorem strip_sandwich (w1 core w2 : List Char)
    (h1 : ∀ c ∈ w1, isWS c = true) (h2 : ∀ c ∈ w2, isWS c = true)
    (hh : ∀ a t, core = a :: t → isWS a = false)
    (hl : ∀ a, core.getLast? = some a → isWS a = false) :
    stripData (w1 ++ core ++ w2) = core := by
  rcases hcore : core with _ | ⟨a, t⟩
  · subst hcore
    rw [stripData]
    have hall : ∀ c ∈ w1 ++ ([] : List Char) ++ w2, isWS c = true := by
      intro c hc
      simp only [List.append_nil, List.mem_append] at hc
      rcases hc with hc | hc
      · exact h1 c hc
      · exact h2 c hc
    rw [dropWhile_all_eq _ hall]
    rfl
  · subst hcore
    rw [stripData]
    have hd1 : (w1 ++ (a :: t) ++ w2).dropWhile isWS = (a :: t) ++ w2 := by
      rw [List.append_assoc, dropWhile_append_all _ _ h1]
      exact List.dropWhile_cons_of_neg (by simp [hh a t rfl])
    rw [hd1]
    rcases hrevc : (a :: t).reverse with _ | ⟨b, tb⟩
    · exact absurd hrevc (by simp)
    · have hb : isWS b = false := by
        apply hl
        rw [List.getLast?_eq_head?_reverse, hrevc]
        rfl
      have hd2 : ((a :: t) ++ w2).reverse.dropWhile isWS = (a :: t).reverse := by
        rw [List.reverse_append,
          dropWhile_append_all _ _ (fun c hc => h2 c (List.mem_reverse.mp hc)), hrevc]
        exact List.dropWhile_cons_of_neg (by simp [hb])
      rw [hd2, List.reverse_reverse]

/-- The last character of a stripped list is not whitespace. -/
theorem stripData_last_not_ws (l : List Char) :
    ∀ a, (stripData l).getLast? = some a → isWS a = false := by
  intro a ha
  rw [stripData] at ha
  rw [List.getLast?_eq_head?_reverse, List.reverse_reverse] at ha
  rcases he : ((l.dropWhile isWS).reverse.dropWhile isWS) with _ | ⟨b, tb⟩
  · rw [he] at ha
    cases ha
  · rw [he] at ha
    simp only [List.head?_cons, Option.some.injEq] at ha
    subst ha
    exact dropWhile_head_false _ _ _ he

/-- The first character of a stripped list is not whitespace. -/
theorem stripData_head_not_ws (l : List Char) :
    ∀ a t, stripData l = a :: t → isWS a = false := by
  intro a t ha
  rw [stripData] at ha
  set m := (l.dropWhile isWS).reverse.dropWhile isWS with hm
  have hmne : m ≠ [] := by
    intro h0
    rw [h0] at ha
    cases ha
  have hga : m.getLast? = some a := by
    rw [List.getLast?_eq_head?_reverse, ha]
    rfl
  have hsplit : (l.dropWhile isWS).reverse
      = (l.dropWhile isWS).reverse.takeWhile isWS ++ m :=
    (List.takeWhile_append_dropWhile _ _).symm
  have hga2 : ((l.dropWhile isWS).reverse).getLast? = some a := by
    rw [hsplit]
    rw [List.getLast?_append_of_ne_nil _ hmne]
    exact hga
  rw [List.getLast?_eq_head?_reverse, List.reverse_reverse] at hga2
  rcases hd : l.dropWhile isWS with _ | ⟨b, tb⟩
  · rw [hd] at hga2
    cases hga2
  · rw [hd] at hga2
    simp only [List.head?_cons, Option.some.injEq] at hga2
    subst hga2
    exact dropWhile_head_false _ _ _ hd

/-- Stripping is idempotent. -/
theorem stripData_idem (l : List Char) : stripData (stripData l) = stripData l := by
  have := strip_sandwich [] (stripData l) []
    (by simp) (by simp) (stripData_head_not_ws l) (stripData_last_not_ws l)
  simpa using this

/-- Python `strip` is idempotent. -/
theorem pyStrip_idem (s : String) : pyStrip (pyStrip s) = pyStrip s := by
  apply String.ext
  simp only [pyStrip]
  exact stripData_idem s.data

/-- When the stripped value contains no whitespace at all, the full
normalization (newline replacement, strip, whitespace collapsing) agrees
with plain stripping. -/
theorem pyNormalize_of_strip_no_ws {s : String}
    (h : ∀ c ∈ stripData s.data, isWS c = false) :
    pyNormalize s = pyStrip s := by
  set t1 := s.data.takeWhile isWS with ht1
  set d1 := s.data.dropWhile isWS with hd1
  set t2 := d1.reverse.takeWhile isWS with ht2
  set core := stripData s.data with hcore
  have hcore2 : core = (d1.reverse.dropWhile isWS).reverse := rfl
  have hsdata : s.data = t1 ++ core ++ t2.reverse := by
    have e1 : s.data = t1 ++ d1 := (List.takeWhile_append_dropWhile _ _).symm
    have e2 : d1.reverse = t2 ++ core.reverse := by
      rw [hcore2]
      simp only [List.reverse_reverse]
      exact (List.takeWhile_append_dropWhile _ _).symm
    have e3 : d1 = core ++ t2.reverse := by
      have := congrArg List.reverse e2
      simpa using this
    rw [e1, e3, List.append_assoc]
  have hw1 : ∀ c ∈ t1, isWS c = true := fun c hc => List.mem_takeWhile_imp hc
  have hw2 : ∀ c ∈ t2.reverse, isWS c = true := fun c hc =>
    List.mem_takeWhile_imp (List.mem_reverse.mp hc)
  have hmap : (t1 ++ core ++ t2.reverse).map nlToSpace
      = t1.map nlToSpace ++ core ++ (t2.reverse.map nlToSpace) := by
    simp only [List.map_append]
    rw [List.map_congr_left (fun a ha => nlToSpace_not_ws (h a ha)), List.map_id']
  have hstrip : stripData ((t1 ++ core ++ t2.reverse).map nlToSpace) = core := by
    rw [hmap]
    exact strip_sandwich _ _ _
      (fun c hc => by
        obtain ⟨x, hx, rfl⟩ := List.mem_map.mp hc
        exact nlToSpace_ws (hw1 x hx))
      (fun c hc => by
        obtain ⟨x, hx, rfl⟩ := List.mem_map.mp hc
        exact nlToSpace_ws (hw2 x hx))
      (fun a t hat => h a (by rw [hat]; simp))
      (fun a hga => by
        have : a ∈ core := List.mem_of_mem_getLast? (by rw [hga]; rfl)
        exact h a this)
  rw [pyNormalize, pyStrip]
  rw [← hsdata] at hstrip
  rw [hstrip]
  rw [collapseWS, collapseAux_no_ws core h false]

/-! ### Behaviour of `_clean_cell` on the three branches -/

/-- Suffix branch: if the normalized value matches the code's pence
pattern, the result is the captured number with commas replaced. -/
theorem clean_cell_suffix {s core : String}
    (h : CodeSuffixMatch (pyNormalize s) core) :
    _clean_cell (.str s) = .str (commaToDot core) := by
  have hp := pSuffixSplit_of_code h
  simp only [_clean_cell, hp]

/-- Numeric branch: a value whose stripped form is purely numeric comes
out as the stripped form with commas replaced. -/
theorem clean_cell_numeric {s : String} (h : SpecNumCore (pyStrip s)) :
    _clean_cell (.str s) = .str (commaToDot (pyStrip s)) := by
  have hnws : ∀ c ∈ stripData s.data, isWS c = false := fun c hc =>
    spec_num_core_no_ws h c hc
  have hnorm : pyNormalize s = pyStrip s := pyNormalize_of_strip_no_ws hnws
  have hnum : isNumCore (pyStrip s).data = true := isNumCore_of_spec h
  have hsplit : pSuffixSplit (pyStrip s) = none := by
    obtain ⟨pre, d, hd, hdd⟩ := spec_num_core_ends_digit h
    have hrev : (pyStrip s).data.reverse = d :: pre.reverse := by
      rw [hd]
      simp
    rw [pSuffixSplit, hrev]
    simp only [pSuffixRev]
    rw [if_neg]
    · rfl
    · rintro (rfl | rfl) <;> exact absurd hdd (by decide)
  simp only [_clean_cell, hnorm, hsplit, hnum, if_true]

/-- Pass-through branch: a value matching neither pattern after
normalization comes out as the normalized value, unchanged. -/
theorem clean_cell_passthrough {s : String}
    (h1 : ∀ core, ¬ ClaimSuffixMatch (pyNormalize s) core)
    (h2 : ¬ SpecNumCore (pyNormalize s)) :
    _clean_cell (.str s) = .str (pyNormalize s) := by
  have hsplit : pSuffixSplit (pyNormalize s) = none := by
    rcases ho : pSuffixSplit (pyNormalize s) with _ | core
    · rfl
    · exact absurd (claim_of_code (code_of_pSuffixSplit ho)) (h1 core)
  have hnum : isNumCore (pyNormalize s).data = false := by
    rcases Bool.eq_false_or_eq_true (isNumCore (pyNormalize s).data) with ht | hf
    · exact absurd (spec_of_isNumCore ht) h2
    · exact hf
  simp only [_clean_cell, hsplit, hnum, Bool.false_eq_true, if_false]

/-! ### Claim C4 -/

/-- C4 fails as stated: the claim's pattern `^-?\d+([.,]\d+)?\s*p$`
matches the (already normalized) value `"27\tp"`, whose whitespace is a
single tab, yet `_clean_cell` leaves that value unchanged instead of
stripping the suffix and returning `"27"` — the code's regex accepts only
space characters (`[ ]*`) before the `p`. -/
theorem C4_counterexample :
    ClaimSuffixMatch (pyNormalize "27\tp") "27" ∧
      _clean_cell (Cell.str "27\tp") = Cell.str "27\tp" ∧
      Cell.str "27\tp" ≠ Cell.str "27" := by
  refine ⟨⟨⟨"", "27", "", Or.inl rfl, by decide, by decide, Or.inl rfl, by decide⟩,
    "\t", "p", by decide, Or.inl rfl, by decide⟩, by decide, by decide⟩

/-- C4 (amended): for every string cell whose value, after whitespace
collapsing and trimming, matches `^-?\d+([.,]\d+)?[ ]*p$`
case-insensitively — spaces only, not arbitrary whitespace, before the
suffix — `_clean_cell` strips the `p` suffix and returns the numeric part
with any comma decimal separator replaced by a period. -/
theorem C4_suffix_normalization {s core : String}
    (h : CodeSuffixMatch (pyNormalize s) core) :
    _clean_cell (Cell.str s) = Cell.str (commaToDot core) :=
  clean_cell_suffix h

/-- Witness for C4 at the spec's own example: `"27,847p"` normalizes to
`"27.847"`. -/
theorem C4_suffix_normalization_witness :
    _clean_cell (Cell.str "27,847p") = Cell.str "27.847" := by
  have h : CodeSuffixMatch (pyNormalize "27,847p") "27,847" :=
    ⟨⟨"", "27", ",847", Or.inl rfl, by decide, by decide,
      Or.inr ⟨",", "847", Or.inr rfl, by decide, by decide, by decide⟩, by decide⟩,
      "", "p", by decide, Or.inl rfl, by decide⟩
  exact (C4_suffix_normalization h).trans (by decide)

/-! ### Claim C5 -/

/-- C5: a string cell whose trimmed value is purely numeric (optional
minus sign, digits, optional single comma or period decimal separator)
is returned with the comma replaced by a period; every other string cell
not matching the numeric or suffix patterns is returned trimmed and
whitespace-collapsed but otherwise unchanged; non-string values pass
through unchanged. -/
theorem C5_cell_normalization :
    (∀ s : String, SpecNumCore (pyStrip s) →
        _clean_cell (Cell.str s) = Cell.str (commaToDot (pyStrip s))) ∧
      (∀ s : String, (∀ core, ¬ ClaimSuffixMatch (pyNormalize s) core) →
        ¬ SpecNumCore (pyNormalize s) →
        _clean_cell (Cell.str s) = Cell.str (pyNormalize s)) ∧
      _clean_cell Cell.na = Cell.na ∧
      (∀ r, _clean_cell (Cell.other r) = Cell.other r) :=
  ⟨fun _ h => clean_cell_numeric h,
    fun _ h1 h2 => clean_cell_passthrough h1 h2,
    rfl, fun _ => rfl⟩

/-- Witness for C5 at the spec's own example: `" 3,5 "` normalizes to
`"3.5"`. -/
theorem C5_cell_normalization_witness :
    _clean_cell (Cell.str " 3,5 ") = Cell.str "3.5" := by
  have h : SpecNumCore (pyStrip " 3,5 ") :=
    ⟨"", "3", ",5", Or.inl rfl, by decide, by decide,
      Or.inr ⟨",", "5", Or.inr rfl, by decide, by decide, by decide⟩, by decide⟩
  exact (C5_cell_normalization.1 " 3,5 " h).trans (by decide)

/-! ### Claim C6 -/

/-- C6: on a cleaned table whose first remaining row `r0` is nonempty,
header promotion occurs iff the trimmed string values of `r0` are
pairwise distinct (case-sensitive); when it occurs, `r0` is removed from
the data rows and its trimmed values, each truncated to 60 characters,
become the column headers; otherwise the table stays headerless with all
rows intact. -/
theorem C6_header_promotion (g : Table) (r0 : List Cell) (rest : Table)
    (hsplit : cleanTable g = r0 :: rest) (hne : r0 ≠ []) :
    ((_maybe_headerize (cleanTable g)).1.isSome = true ↔
        (r0.map (fun c => pyStrip (cellToStr c))).Nodup) ∧
      ((r0.map (fun c => pyStrip (cellToStr c))).Nodup →
        _maybe_headerize (cleanTable g) =
          (some ((r0.map (fun c => pyStrip (cellToStr c))).map (fun s => s.take 60)),
            rest)) ∧
      (¬ (r0.map (fun c => pyStrip (cellToStr c))).Nodup →
        _maybe_headerize (cleanTable g) = (none, r0 :: rest)) := by
  rw [hsplit]
  have hr0 : ¬ (r0.isEmpty = true) := by simp [hne]
  have hmap : (r0.map (fun c => pyStrip (cellToStr c))).map (fun s => (pyStrip s).take 60)
      = (r0.map (fun c => pyStrip (cellToStr c))).map (fun s => s.take 60) := by
    apply List.map_congr_left
    intro a ha
    obtain ⟨c, _, rfl⟩ := List.mem_map.mp ha
    rw [pyStrip_idem]
  by_cases hnd : (r0.map (fun c => pyStrip (cellToStr c))).Nodup
  · refine ⟨?_, fun _ => ?_, fun hcon => absurd hnd hcon⟩
    · simp only [_maybe_headerize, if_neg hr0, if_pos hnd]
      simp [hnd]
    · simp only [_maybe_headerize, if_neg hr0, if_pos hnd, hmap]
  · refine ⟨?_, fun hcon => absurd hcon hnd, fun _ => ?_⟩
    · simp only [_maybe_headerize, if_neg hr0, if_neg hnd]
      simp [hnd]
    · simp only [_maybe_headerize, if_neg hr0, if_neg hnd]

/-- Witness for C6 at the spec's duplicate-header example: a first row
`["Date","Amount","Date"]` is not promoted and the table stays
headerless. -/
theorem C6_header_promotion_witness :
    _maybe_headerize (cleanTable
        [[Cell.str "Date", Cell.str "Amount", Cell.str "Date"],
          [Cell.str "1", Cell.str "2", Cell.str "3"]]) =
      (none, [[Cell.str "Date", Cell.str "Amount", Cell.str "Date"],
        [Cell.str "1", Cell.str "2", Cell.str "3"]]) := by
  have h := C6_header_promotion
    [[Cell.str "Date", Cell.str "Amount", Cell.str "Date"],
      [Cell.str "1", Cell.str "2", Cell.str "3"]]
    [Cell.str "Date", Cell.str "Amount", Cell.str "Date"]
    [[Cell.str "1", Cell.str "2", Cell.str "3"]]
    (by decide) (by decide)
  exact h.2.2 (by decide)

/-! ### Claim C9 -/

/-- C9 fails as stated: reading "looser" as a numerically larger
tolerance, the fourth strategy (`row_tol=5, column_tol=15`) does not use
a looser row tolerance and a tighter column tolerance than the third
(`row_tol=10, column_tol=10`) — the relation is exactly the other way
around. -/
theorem C9_counterexample :
    ¬ (∀ c3 c4 : CamelotCfg,
        _camelot_configs.get? 2 = some c3 → _camelot_configs.get? 3 = some c4 →
        ∃ r3 r4 k3 k4 : Nat,
          c3.row_tol = some r3 ∧ c4.row_tol = some r4 ∧
          c3.column_tol = some k3 ∧ c4.column_tol = some k4 ∧
          r3 < r4 ∧ k4 < k3) := by
  intro h
  obtain ⟨r3, r4, k3, k4, h3, h4, _, _, hr, _⟩ :=
    h { flavor := .stream, row_tol := some 10, column_tol := some 10 }
      { flavor := .stream, row_tol := some 5, column_tol := some 15 } rfl rfl
  simp only [Option.some.injEq] at h3 h4
  omega

/-- C9 (amended): the fourth strategy (second whitespace-gap
configuration) uses a tighter (smaller) row tolerance and a looser
(larger) column tolerance than the third: `row_tol` 5 versus 10 and
`column_tol` 15 versus 10. -/
theorem C9_stream_tolerances :
    ∃ c3 c4 : CamelotCfg,
      _camelot_configs.get? 2 = some c3 ∧ _camelot_configs.get? 3 = some c4 ∧
      c3.flavor = .stream ∧ c4.flavor = .stream ∧
      c3.row_tol = some 10 ∧ c4.row_tol = some 5 ∧
      c3.column_tol = some 10 ∧ c4.column_tol = some 15 ∧
      (5 : Nat) < 10 ∧ (10 : Nat) < 15 :=
  ⟨_, _, rfl, rfl, rfl, rfl, rfl, rfl, rfl, rfl, by omega, by omega⟩

/-! ### Strategy-chain lemmas -/

theorem except_map_ok {ε α β : Type} (f : α → β) (x : α) :
    (Except.ok x : Except ε α).map f = .ok (f x) := rfl

theorem except_map_error {ε α β : Type} (f : α → β) (e : ε) :
    (Except.error e : Except ε α).map f = .error e := rfl

/-- If every configuration in the remaining sweep returns zero tables,
the camelot stage reports no tables. -/
theorem camelotLoop_all_empty (env : Env) (src : Source)
    (l : List (Nat × CamelotCfg))
    (h : ∀ p ∈ l, env.camelot p.2 src = .ok []) :
    (camelotLoop env src l).1 = ([], "camelot:none") := by
  induction l with
  | nil => rfl
  | cons p rest ih =>
    obtain ⟨i, cfg⟩ := p
    have hc := h (i, cfg) (by simp)
    simp only [camelotLoop, hc]
    rw [if_neg (by simp)]
    exact ih (fun q hq => h q (by simp [hq]))

/-- Every invocation recorded by the camelot sweep is one of the swept
configurations. -/
theorem camelotLoop_mem (env : Env) (src : Source)
    (l : List (Nat × CamelotCfg)) (s : StratId)
    (hs : s ∈ (camelotLoop env src l).2) :
    ∃ j, s = .cam j ∧ j ∈ l.map Prod.fst := by
  induction l with
  | nil => simp [camelotLoop] at hs
  | cons p rest ih =>
    obtain ⟨i, cfg⟩ := p
    rcases hc : env.camelot cfg src with u | tables
    · simp only [camelotLoop, hc] at hs
      rcases List.mem_cons.mp hs with rfl | hs'
      · exact ⟨i, rfl, by simp⟩
      · obtain ⟨j, rfl, hj⟩ := ih hs'
        exact ⟨j, rfl, by simp [hj]⟩
    · by_cases ht : tables.length > 0
      · simp only [camelotLoop, hc, if_pos ht] at hs
        rcases List.mem_singleton.mp hs with rfl
        exact ⟨i, rfl, by simp⟩
      · simp only [camelotLoop, hc, if_neg ht] at hs
        rcases List.mem_cons.mp hs with rfl | hs'
        · exact ⟨i, rfl, by simp⟩
        · obtain ⟨j, rfl, hj⟩ := ih hs'
          exact ⟨j, rfl, by simp [hj]⟩

/-- If configuration `j` was invoked during the camelot sweep and would
return a nonempty table list, the sweep stops there: it returns exactly
those tables under `j`'s name, and no later configuration is invoked. -/
theorem camelotLoop_success (env : Env) (src : Source)
    (l : List (Nat × CamelotCfg)) (j : Nat) (tbl : List Table)
    (hget : ∀ p ∈ l, _camelot_configs.get? p.1 = some p.2)
    (hasc : l.Pairwise (fun p q => p.1 < q.1))
    (hmem : StratId.cam j ∈ (camelotLoop env src l).2)
    (hout : stratOutcome env src (.cam j) = .ok tbl)
    (hne : tbl ≠ []) :
    (camelotLoop env src l).1 = (tbl, "camelot:cfg" ++ toString j) ∧
      ∀ s ∈ (camelotLoop env src l).2, s.pos ≤ j := by
  induction l with
  | nil => simp [camelotLoop] at hmem
  | cons p rest ih =>
    obtain ⟨i, cfg⟩ := p
    have hgeti : _camelot_configs.get? i = some cfg := hget (i, cfg) (by simp)
    obtain ⟨hasc1, hasc2⟩ := List.pairwise_cons.mp hasc
    rcases hc : env.camelot cfg src with u | tables
    · have hji : j ≠ i := by
        rintro rfl
        simp only [stratOutcome, hgeti] at hout
        rw [hc] at hout
        cases hout
      simp only [camelotLoop, hc] at hmem ⊢
      rcases List.mem_cons.mp hmem with heq | hmem'
      · exact absurd (by cases heq; rfl) hji
      · have hlt : i < j := by
          obtain ⟨j', hj', hjmem⟩ := camelotLoop_mem env src rest _ hmem'
          cases hj'
          obtain ⟨q, hq, hq1⟩ := List.mem_map.mp hjmem
          have := hasc1 q hq
          omega
        obtain ⟨hres, hpos⟩ := ih (fun q hq => hget q (by simp [hq])) hasc2 hmem'
        refine ⟨hres, ?_⟩
        intro s hs
        rcases List.mem_cons.mp hs with rfl | hs'
        · simpa [StratId.pos] using Nat.le_of_lt hlt
        · exact hpos s hs'
    · by_cases ht : tables.length > 0
      · simp only [camelotLoop, hc, if_pos ht] at hmem ⊢
        have hinj := List.mem_singleton.mp hmem
        injection hinj with hji
        subst hji
        simp only [stratOutcome, hgeti] at hout
        rw [hc] at hout
        have htbl : tables = tbl := by cases hout; rfl
        subst htbl
        refine ⟨rfl, ?_⟩
        intro s hs
        rcases List.mem_singleton.mp hs with rfl
        simp [StratId.pos]
      · have hji : j ≠ i := by
          rintro rfl
          simp only [stratOutcome, hgeti] at hout
          rw [hc] at hout
          have : tables = tbl := by cases hout; rfl
          subst this
          simp at ht
          exact hne ht
        simp only [camelotLoop, hc, if_neg ht] at hmem ⊢
        rcases List.mem_cons.mp hmem with heq | hmem'
        · exact absurd (by cases heq; rfl) hji
        · have hlt : i < j := by
            obtain ⟨j', hj', hjmem⟩ := camelotLoop_mem env src rest _ hmem'
            cases hj'
            obtain ⟨q, hq, hq1⟩ := List.mem_map.mp hjmem
            have := hasc1 q hq
            omega
          obtain ⟨hres, hpos⟩ := ih (fun q hq => hget q (by simp [hq])) hasc2 hmem'
          refine ⟨hres, ?_⟩
          intro s hs
          rcases List.mem_cons.mp hs with rfl | hs'
          · simpa [StratId.pos] using Nat.le_of_lt hlt
          · exact hpos s hs'

/-- The enum of the concrete configuration list satisfies the sweep
invariants. -/
theorem configs_enum_get :
    ∀ p ∈ _camelot_configs.enum, _camelot_configs.get? p.1 = some p.2 := by
  decide

theorem configs_enum_asc :
    _camelot_configs.enum.Pairwise (fun p q => p.1 < q.1) := by
  decide

theorem configs_enum_indices :
    _camelot_configs.enum.map Prod.fst = [0, 1, 2, 3] := by
  decide

/-- If a tabula mode was invoked and would return a nonempty (filtered)
frame list, the tabula strategy returns exactly those frames under that
mode's name and invokes nothing after that mode. -/
theorem tabula_success (env : Env) (src : Source) (s : StratId) (tbl : List Table)
    (hmem : s ∈ (_try_tabula env src).2)
    (hout : stratOutcome env src s = .ok tbl) (hne : tbl ≠ []) :
    (_try_tabula env src).1 = (tbl, stratName s) ∧
      ∀ s' ∈ (_try_tabula env src).2, s'.pos ≤ s.pos := by
  by_cases hav : env.tabulaAvailable
  · rcases h1 : env.tabula true src with u | l1
    · simp only [_try_tabula, if_pos hav, h1] at hmem ⊢
      rcases List.mem_singleton.mp hmem with rfl
      rw [stratOutcome, h1] at hout
      cases hout
    · by_cases he1 : (l1.filter (fun t => !dfEmpty t)).isEmpty
      · rcases h2 : env.tabula false src with u | l2
        · simp only [_try_tabula, if_pos hav, h1, if_pos he1, h2] at hmem ⊢
          rcases List.mem_cons.mp hmem with rfl | hs'
          · rw [stratOutcome, h1] at hout
            simp only [except_map_ok, Except.ok.injEq] at hout
            subst hout
            exact absurd (List.isEmpty_eq_true.mp he1) hne
          · rcases List.mem_singleton.mp hs' with rfl
            rw [stratOutcome, h2] at hout
            cases hout
        · by_cases he2 : ((l1.filter (fun t => !dfEmpty t))
              ++ l2.filter (fun t => !dfEmpty t)).isEmpty
          · simp only [_try_tabula, if_pos hav, h1, if_pos he1, h2, if_pos he2] at hmem ⊢
            rcases List.mem_cons.mp hmem with rfl | hs'
            · rw [stratOutcome, h1] at hout
              simp only [except_map_ok, Except.ok.injEq] at hout
              subst hout
              exact absurd (List.isEmpty_eq_true.mp he1) hne
            · rcases List.mem_singleton.mp hs' with rfl
              rw [stratOutcome, h2] at hout
              simp only [except_map_ok, Except.ok.injEq] at hout
              subst hout
              exact absurd (List.append_eq_nil.mp (List.isEmpty_eq_true.mp he2)).2 hne
          · simp only [_try_tabula, if_pos hav, h1, if_pos he1, h2, if_neg he2] at hmem ⊢
            rcases List.mem_cons.mp hmem with rfl | hs'
            · rw [stratOutcome, h1] at hout
              simp only [except_map_ok, Except.ok.injEq] at hout
              subst hout
              exact absurd (List.isEmpty_eq_true.mp he1) hne
            · rcases List.mem_singleton.mp hs' with rfl
              rw [stratOutcome, h2] at hout
              simp only [except_map_ok, Except.ok.injEq] at hout
              subst hout
              rw [List.isEmpty_eq_true.mp he1]
              refine ⟨by simp [stratName], ?_⟩
              intro s' hs'
              rcases List.mem_cons.mp hs' with rfl | hs''
              · simp [StratId.pos]
              · rcases List.mem_singleton.mp hs'' with rfl
                simp [StratId.pos]
      · simp only [_try_tabula, if_pos hav, h1, if_neg he1] at hmem ⊢
        rcases List.mem_singleton.mp hmem with rfl
        rw [stratOutcome, h1] at hout
        simp only [except_map_ok, Except.ok.injEq] at hout
        subst hout
        refine ⟨rfl, ?_⟩
        intro s' hs'
        rcases List.mem_singleton.mp hs' with rfl
        simp [StratId.pos]
  · simp only [_try_tabula, if_neg hav] at hmem
    simp at hmem

/-- Every camelot invocation sits at chain position at most 3. -/
theorem camelot_trace_pos (env : Env) (src : Source) (s : StratId)
    (hs : s ∈ (_try_camelot env src).2) : s.pos ≤ 3 := by
  obtain ⟨j, rfl, hj⟩ := camelotLoop_mem env src _ s hs
  rw [configs_enum_indices] at hj
  simp only [List.mem_cons, List.not_mem_nil, or_false] at hj
  rcases hj with rfl | rfl | rfl | rfl <;> simp [StratId.pos]

/-- If the camelot stage came back empty, no invoked configuration had a
nonempty result. -/
theorem camelot_empty_no_success (env : Env) (src : Source) (j : Nat)
    (tbl : List Table)
    (hcam : (_try_camelot env src).1.1.isEmpty = true)
    (hmem : StratId.cam j ∈ (_try_camelot env src).2)
    (hout : stratOutcome env src (.cam j) = .ok tbl) (hne : tbl ≠ []) : False := by
  obtain ⟨hres, _⟩ := camelotLoop_success env src _ j tbl
    configs_enum_get configs_enum_asc hmem hout hne
  have h1 : (_try_camelot env src).1.1 = tbl := by
    rw [_try_camelot, hres]
  rw [h1] at hcam
  exact hne (List.isEmpty_eq_true.mp hcam)

/-- The tabula strategy only ever records its own two modes. -/
theorem tabula_trace_mem (env : Env) (src : Source) (s : StratId)
    (hs : s ∈ (_try_tabula env src).2) :
    s = StratId.tabLattice ∨ s = StratId.tabStream := by
  by_cases hav : env.tabulaAvailable
  · rcases h1 : env.tabula true src with u | l1
    · simp only [_try_tabula, if_pos hav, h1] at hs
      exact Or.inl (List.mem_singleton.mp hs)
    · by_cases he1 : (l1.filter (fun t => !dfEmpty t)).isEmpty
      · rcases h2 : env.tabula false src with u | l2
        · simp only [_try_tabula, if_pos hav, h1, if_pos he1, h2] at hs
          rcases List.mem_cons.mp hs with rfl | hs'
          · exact Or.inl rfl
          · exact Or.inr (List.mem_singleton.mp hs')
        · by_cases he2 : ((l1.filter (fun t => !dfEmpty t))
              ++ l2.filter (fun t => !dfEmpty t)).isEmpty
          · simp only [_try_tabula, if_pos hav, h1, if_pos he1, h2, if_pos he2] at hs
            rcases List.mem_cons.mp hs with rfl | hs'
            · exact Or.inl rfl
            · exact Or.inr (List.mem_singleton.mp hs')
          · simp only [_try_tabula, if_pos hav, h1, if_pos he1, h2, if_neg he2] at hs
            rcases List.mem_cons.mp hs with rfl | hs'
            · exact Or.inl rfl
            · exact Or.inr (List.mem_singleton.mp hs')
      · simp only [_try_tabula, if_pos hav, h1, if_neg he1] at hs
        exact Or.inl (List.mem_singleton.mp hs)
  · simp only [_try_tabula, if_neg hav] at hs
    simp at hs

/-! ### Claim C2 -/

/-- C2: the chain short-circuits on the first nonempty result — whenever
a strategy is invoked and returns at least one table, no strategy later
in the canonical ordering is invoked, the chain's result is exactly that
strategy's tables under its name, and the conversion returns exactly the
serialization of those tables. -/
theorem C2_chain_short_circuit (env : Env) (src : Source) (s : StratId)
    (tbl : List Table)
    (hmem : s ∈ (runChain env src).2)
    (hout : stratOutcome env src s = .ok tbl) (hne : tbl ≠ []) :
    (∀ s' ∈ (runChain env src).2, s'.pos ≤ s.pos) ∧
      (runChain env src).1 = .ok (tbl, stratName s) ∧
      ∀ u : Bool, convertFrom env src u =
        .ok (_write_excel tbl,
          { extractor := stratName s, tables_found := tbl.length,
            ocr_used := u, pages := metaPages env src }) := by
  have hconv : (runChain env src).1 = .ok (tbl, stratName s) →
      ∀ u : Bool, convertFrom env src u =
        .ok (_write_excel tbl,
          { extractor := stratName s, tables_found := tbl.length,
            ocr_used := u, pages := metaPages env src }) := by
    intro hrc u
    simp only [convertFrom, hrc]
    rw [if_neg (by simp [hne])]
  by_cases hcam : (_try_camelot env src).1.1.isEmpty
  · rcases hp : env.pdfplumberTables src with up | frames
    · exfalso
      have hrun : runChain env src
          = (.error up, (_try_camelot env src).2 ++ [StratId.plumber]) := by
        simp only [runChain, if_pos hcam, _try_pdfplumber, hp, except_map_error]
      rw [hrun] at hmem
      rcases List.mem_append.mp hmem with hs | hs
      · obtain ⟨j, rfl, _⟩ := camelotLoop_mem env src _ s hs
        exact camelot_empty_no_success env src j tbl hcam hs hout hne
      · have hsp : s = StratId.plumber := List.mem_singleton.mp hs
        subst hsp
        rw [stratOutcome, hp] at hout
        cases hout
    · by_cases hfr : (frames : List Table).isEmpty
      · have hrun : runChain env src
            = (.ok (_try_tabula env src).1,
              (_try_camelot env src).2 ++ [StratId.plumber]
                ++ (_try_tabula env src).2) := by
          simp only [runChain, if_pos hcam, _try_pdfplumber, hp, except_map_ok]
          rw [if_pos hfr]
        rw [hrun] at hmem ⊢
        rcases List.mem_append.mp hmem with hs | hs
        · rcases List.mem_append.mp hs with hs' | hs'
          · exfalso
            obtain ⟨j, rfl, _⟩ := camelotLoop_mem env src _ s hs'
            exact camelot_empty_no_success env src j tbl hcam hs' hout hne
          · exfalso
            have hsp : s = StratId.plumber := List.mem_singleton.mp hs'
            subst hsp
            rw [stratOutcome, hp] at hout
            have : frames = tbl := by cases hout; rfl
            subst this
            exact hne (List.isEmpty_eq_true.mp hfr)
        · obtain ⟨htres, htpos⟩ := tabula_success env src s tbl hs hout hne
          have hspos : 5 ≤ s.pos := by
            rcases tabula_trace_mem env src s hs with rfl | rfl <;> simp [StratId.pos]
          refine ⟨?_, by rw [htres], hconv (by rw [hrun, htres])⟩
          intro s' hs'
          rcases List.mem_append.mp hs' with hc | hc
          · rcases List.mem_append.mp hc with hc' | hc'
            · exact le_trans (camelot_trace_pos env src s' hc')
                (le_trans (by omega : (3 : Nat) ≤ 5) hspos)
            · have : s' = StratId.plumber := List.mem_singleton.mp hc'
              subst this
              exact le_trans (by decide : StratId.plumber.pos ≤ 5) hspos
          · exact htpos s' hc
      · have hrun : runChain env src
            = (.ok (frames, "pdfplumber"),
              (_try_camelot env src).2 ++ [StratId.plumber]) := by
          simp only [runChain, if_pos hcam, _try_pdfplumber, hp, except_map_ok]
          rw [if_neg hfr]
        rw [hrun] at hmem ⊢
        rcases List.mem_append.mp hmem with hs | hs
        · exfalso
          obtain ⟨j, rfl, _⟩ := camelotLoop_mem env src _ s hs
          exact camelot_empty_no_success env src j tbl hcam hs hout hne
        · have hsp : s = StratId.plumber := List.mem_singleton.mp hs
          subst hsp
          rw [stratOutcome, hp] at hout
          have : frames = tbl := by cases hout; rfl
          subst this
          refine ⟨?_, by simp [stratName], hconv (by rw [hrun]; simp [stratName])⟩
          intro s' hs'
          rcases List.mem_append.mp hs' with hc | hc
          · exact le_trans (camelot_trace_pos env src s' hc) (by decide)
          · have : s' = StratId.plumber := List.mem_singleton.mp hc
            subst this
            simp [StratId.pos]
  · have hrun : runChain env src
        = (.ok (_try_camelot env src).1, (_try_camelot env src).2) := by
      simp only [runChain, if_neg hcam]
    rw [hrun] at hmem ⊢
    obtain ⟨j, rfl, _⟩ := camelotLoop_mem env src _ s hmem
    obtain ⟨hres, hpos⟩ := camelotLoop_success env src _ j tbl
      configs_enum_get configs_enum_asc hmem hout hne
    have h1 : (_try_camelot env src).1 = (tbl, "camelot:cfg" ++ toString j) := by
      rw [_try_camelot, hres]
    refine ⟨?_, by rw [h1]; rfl, hconv (by rw [hrun, h1]; rfl)⟩
    intro s' hs'
    exact hpos s' hs'

/-- Witness for C2: with the first camelot configuration empty and the
second returning one table, the chain returns exactly that table under
the second configuration's name. -/
theorem C2_chain_short_circuit_witness :
    (runChain envC2 Source.original).1 = .ok ([tableW], stratName (StratId.cam 1)) :=
  (C2_chain_short_circuit envC2 Source.original (StratId.cam 1) [tableW]
    (by decide) rfl (by simp)).2.1

/-! ### Claim C1 -/

/-- C1: if every camelot configuration, pdfplumber, and tabula all return
zero tables, the conversion fails with the no-tables error — it never
returns a spreadsheet. -/
theorem C1_no_tables (env : Env)
    (hcam : ∀ cfg ∈ _camelot_configs, ∀ src : Source, env.camelot cfg src = .ok [])
    (hpl : ∀ src : Source, env.pdfplumberTables src = .ok [])
    (htab : ∀ (b : Bool) (src : Source), env.tabula b src = .ok []) :
    convert_pdf_to_excel_with_meta env = .error ConvError.noTables := by
  rw [convert_pdf_to_excel_with_meta]
  suffices h : ∀ (src : Source) (u : Bool),
      convertFrom env src u = .error ConvError.noTables by
    exact h _ _
  intro src u
  have hcamres : (_try_camelot env src).1 = ([], "camelot:none") := by
    apply camelotLoop_all_empty
    intro p hp
    exact hcam p.2 (List.get?_mem (configs_enum_get p hp)) src
  have hcam1 : (_try_camelot env src).1.1.isEmpty = true := by
    rw [hcamres]
    rfl
  have htabres : (_try_tabula env src).1.1 = [] := by
    by_cases hav : env.tabulaAvailable
    · simp [_try_tabula, hav, htab true src, htab false src]
    · simp [_try_tabula, hav]
  have hrun : (runChain env src).1 = .ok (_try_tabula env src).1 := by
    simp [runChain, hcam1, _try_pdfplumber, hpl src, except_map_ok]
  simp only [convertFrom, hrun]
  rw [if_pos (by rw [htabres]; rfl)]

/-- Witness for C1: an environment whose strategies all return zero
tables makes the conversion fail with the no-tables error. -/
theorem C1_no_tables_witness :
    convert_pdf_to_excel_with_meta envAllEmpty = .error ConvError.noTables :=
  C1_no_tables envAllEmpty (fun _ _ _ => rfl) (fun _ => rfl) (fun _ _ => rfl)

/-! ### Claim C3 -/

/-- C3 fails as stated: in an environment where every camelot
configuration returns zero tables, the pdfplumber strategy raises, and
tabula would return one table, the conversion aborts with a fatal error
instead of absorbing the pdfplumber fault and continuing to tabula. -/
theorem C3_counterexample :
    convert_pdf_to_excel_with_meta envC3 = .error ConvError.fatal ∧
      stratOutcome envC3 Source.original StratId.tabLattice = .ok [tableW] ∧
      ([tableW] : List Table) ≠ [] :=
  ⟨rfl, rfl, by simp⟩

/-- C3 (amended): faults in camelot configurations and inside tabula are
absorbed — the conversion aborts with a non-no-tables error exactly when
the camelot stage yields no tables and the pdfplumber strategy raises;
no other single strategy fault aborts the conversion. -/
theorem C3_strategy_faults (env : Env) :
    convert_pdf_to_excel_with_meta env = .error ConvError.fatal ↔
      ((_try_camelot env (pickSource env).1).1.1 = [] ∧
        env.pdfplumberTables (pickSource env).1 = .error ()) := by
  rw [convert_pdf_to_excel_with_meta]
  constructor
  · intro h
    by_cases hcam : (_try_camelot env (pickSource env).1).1.1.isEmpty
    · rcases hp : env.pdfplumberTables (pickSource env).1 with u | frames
      · exact ⟨List.isEmpty_eq_true.mp hcam, rfl⟩
      · exfalso
        by_cases hfr : frames.isEmpty
        · have hrun : (runChain env (pickSource env).1).1
              = .ok (_try_tabula env (pickSource env).1).1 := by
            simp only [runChain, if_pos hcam, _try_pdfplumber, hp, except_map_ok]
            rw [if_pos hfr]
          simp only [convertFrom, hrun] at h
          by_cases he : (_try_tabula env (pickSource env).1).1.1.isEmpty
          · rw [if_pos he] at h
            cases h
          · rw [if_neg he] at h
            cases h
        · have hrun : (runChain env (pickSource env).1).1
              = .ok (frames, "pdfplumber") := by
            simp only [runChain, if_pos hcam, _try_pdfplumber, hp, except_map_ok]
            rw [if_neg hfr]
          simp only [convertFrom, hrun] at h
          rw [if_neg hfr] at h
          cases h
    · have hrun : (runChain env (pickSource env).1).1
          = .ok (_try_camelot env (pickSource env).1).1 := by
        simp only [runChain, if_neg hcam]
      simp only [convertFrom, hrun] at h
      rw [if_neg hcam] at h
      cases h
  · rintro ⟨hc, hp⟩
    have hcam1 : (_try_camelot env (pickSource env).1).1.1.isEmpty = true := by
      rw [hc]
      rfl
    have hrun : (runChain env (pickSource env).1).1 = .error () := by
      simp only [runChain, if_pos hcam1, _try_pdfplumber, hp, except_map_error]
    simp only [convertFrom, hrun]

/-! ### Claim C7 -/

/-- C7: when the document has no selectable text and the OCR invocation
raises, the conversion does not abort — it continues the extraction
chain on the original document, without the OCR flag. -/
theorem C7_ocr_failure_continues (env : Env)
    (htext : env.hasText = false) (hocr : env.ocr = .error ()) :
    convert_pdf_to_excel_with_meta env = convertFrom env Source.original false := by
  rw [convert_pdf_to_excel_with_meta]
  have hps : pickSource env = (Source.original, false) := by
    simp [pickSource, htext, hocr]
  rw [hps]

/-- Witness for C7: a concrete no-text environment with failing OCR. -/
theorem C7_ocr_failure_continues_witness :
    convert_pdf_to_excel_with_meta envC7 = convertFrom envC7 Source.original false :=
  C7_ocr_failure_continues envC7 rfl rfl

/-! ### Claim C8 -/

/-- C8 fails as stated: in an environment with no selectable text (so the
OCR normalizer is invoked) whose OCR invocation fails, the successful
conversion reports `ocr_used = false`, although the claim requires the
flag to be set whenever OCR was invoked, regardless of success. -/
theorem C8_counterexample :
    envC8.hasText = false ∧ envC8.ocr = .error () ∧
      (convert_pdf_to_excel_with_meta envC8).toOption.map (fun out => out.2.ocr_used)
        = some false :=
  ⟨rfl, rfl, rfl⟩

/-- C8 (amended): in the returned metadata, `ocr_used` is true iff the
text-presence detector found no usable text and the OCR invocation
completed successfully. -/
theorem C8_ocr_used_success (env : Env) (out : List Sheet × ConvMeta)
    (h : convert_pdf_to_excel_with_meta env = .ok out) :
    (out.2.ocr_used = true ↔ (env.hasText = false ∧ env.ocr = .ok ())) := by
  have hu : out.2.ocr_used = (pickSource env).2 := by
    rw [convert_pdf_to_excel_with_meta] at h
    rcases hrc : (runChain env (pickSource env).1).1 with e | dm
    · simp only [convertFrom, hrc] at h
      cases h
    · simp only [convertFrom, hrc] at h
      by_cases hde : dm.1.isEmpty
      · rw [if_pos hde] at h
        cases h
      · rw [if_neg hde] at h
        cases h
        rfl
  rw [hu]
  rcases htext : env.hasText with _ | _
  · rcases hocr : env.ocr with u | u
    · cases u
      simp [pickSource, htext, hocr]
    · cases u
      simp [pickSource, htext, hocr]
  · simp [pickSource, htext]

set_option maxRecDepth 4000 in
/-- Witness for C8 (amended) at a successful conversion. -/
theorem C8_ocr_used_success_witness :
    (outC8w.2.ocr_used = true ↔ (envC8w.hasText = false ∧ envC8w.ocr = .ok ())) :=
  C8_ocr_used_success envC8w outC8w rfl

/-! ### Claim C10 -/

/-- C10: the backward-compatibility wrapper returns exactly the
spreadsheet component of `convert_pdf_to_excel_with_meta` and fails with
exactly the same error when the latter fails. -/
theorem C10_wrapper_refines (env : Env) :
    convert_pdf_to_excel env = (convert_pdf_to_excel_with_meta env).map Prod.fst := by
  rcases h : convert_pdf_to_excel_with_meta env with e | xm
  · simp only [convert_pdf_to_excel, h, except_map_error]
  · simp only [convert_pdf_to_excel, h, except_map_ok]

end Converter
